import Mathlib

/-!
Verification of the docstring preprocessor in `pydocmd/google_docstrings.py`.

The per-line pipeline (`Preprocessor.preprocess_section`) runs three stages on
each line of the input block: `_process_codeblock` (fence tracking),
`_process_doctest_codeblock` (doctest transcript rewriting) and `_process_line`
(section header detection and body rewriting).  A stage may short-circuit the
rest of the pipeline for the current line (Python raises `LineFinished`, caught
by the loop).  After all lines are processed, `_preprocess_refs` rewrites
`#symbol` references over the joined output.

Strings are modelled as Lean `String`s, with the Python string operations
implemented explicitly over the underlying character lists (`str.strip`,
`str.lstrip`, `str.rstrip`, `str.startswith`, `str.lower`, `str.replace`,
slicing and one-shot `split`).  Python's `\w` regex class is modelled as ASCII
alphanumeric (all inputs of interest are ASCII).
-/

/-- Python whitespace (`str.strip` and the regex class `\s`, ASCII range). -/
def pySpace (c : Char) : Bool :=
  c = ' ' || c = '\t' || c = '\n' || c = '\r' || c = '\x0b' || c = '\x0c'

/-- Python `str.lstrip()`. -/
def pyLstrip (s : String) : String := ⟨s.data.dropWhile pySpace⟩

/-- Python `str.rstrip()`. -/
def pyRstrip (s : String) : String := ⟨(s.data.reverse.dropWhile pySpace).reverse⟩

/-- Python `str.strip()`. -/
def pyStrip (s : String) : String := pyLstrip (pyRstrip s)

/-- The leading whitespace run of a line: `line[0:len(line)-len(line.lstrip())]`,
which is also the text matched by `re.match('(\s+)', line)` (empty if none). -/
def leadingWs (s : String) : String := ⟨s.data.takeWhile pySpace⟩

/-- ASCII case folding of one character, as Python `str.lower` acts on ASCII. -/
def asciiLower (c : Char) : Char :=
  if 'A' ≤ c ∧ c ≤ 'Z' then Char.ofNat (c.toNat + 32) else c

/-- Python `str.lower()` (ASCII fragment). -/
def pyLower (s : String) : String := ⟨s.data.map asciiLower⟩

/-- Python `str.startswith`. -/
def pyStartsWith (s pre : String) : Bool := pre.data.isPrefixOf s.data

/-- Python slice `s[:n]` for `n ≥ 0`. -/
def pyTake (s : String) (n : Nat) : String := ⟨s.data.take n⟩

/-- Python slice `s[n:]` for `n ≥ 0`. -/
def pyDrop (s : String) (n : Nat) : String := ⟨s.data.drop n⟩

/-- Python `c in s` for a single character. -/
def pyContainsChar (s : String) (c : Char) : Bool := s.data.contains c

/-- Maps each character to a replacement list and concatenates the results. -/
def charExpand (f : Char → List Char) : List Char → List Char
  | [] => []
  | c :: cs => f c ++ charExpand f cs

/-- Python `str.replace(old, new)` for a single-character pattern. -/
def pyReplaceChar (old : Char) (new : List Char) (l : List Char) : List Char :=
  charExpand (fun c => if c = old then new else [c]) l

/-- `whitespace.replace('\t', ' '*8)` applied to a whitespace run, followed by
the untouched remainder: the `processed_line` of `_process_doctest_codeblock`. -/
def expandTabs (s : String) : String :=
  ⟨charExpand (fun c => if c = '\t' then List.replicate 8 ' ' else [c]) s.data⟩

/-- `re.match(r'^(.+):$', r)` (no MULTILINE, `.` does not cross a newline):
matches iff `r` ends in `':'` with a nonempty newline-free part before it;
returns `group(1)`. -/
def headerName (r : String) : Option String :=
  if 2 ≤ r.data.length ∧ r.data.getLast? = some ':' ∧ '\n' ∉ r.data.dropLast then
    some ⟨r.data.dropLast⟩
  else none

/-- The `valid_sections` alias table from `Preprocessor.__init__`. -/
def valid_sections : List (String × String) :=
  [("args", "Arguments"), ("arguments", "Arguments"), ("parameters", "Arguments"),
   ("params", "Arguments"), ("attributes", "Attributes"), ("members", "Attributes"),
   ("raises", "Raises"), ("return", "Returns"), ("returns", "Returns"),
   ("yields", "Yields")]

/-- The mutable fields of `Preprocessor`: `_current_section`, `_in_codeblock`,
`_in_doctest_codeblock`, `self.indent` and the accumulated `_lines`. -/
structure PState where
  current_section : Option String
  in_codeblock : Bool
  in_doctest_codeblock : Bool
  indent : Int
  lines : List String
deriving DecidableEq, Repr

/-- The state right after `Preprocessor.__init__`. -/
def initState : PState :=
  { current_section := none, in_codeblock := false, in_doctest_codeblock := false,
    indent := 0, lines := [] }

/-- Result of one per-line stage: `handled` models the stage appending to
`_lines` itself and raising `LineFinished`; `cont l` models returning `l`. -/
inductive StageRes where
  | handled : StageRes
  | cont : String → StageRes
deriving DecidableEq, Repr

/-- `Preprocessor._process_codeblock`. -/
def process_codeblock (st : PState) (line : String) : PState × StageRes :=
  let st1 := if pyStartsWith line "```" then { st with in_codeblock := !st.in_codeblock } else st
  if st1.in_codeblock then ({ st1 with lines := st1.lines ++ [line] }, .handled)
  else (st1, .cont line)

/-- `line.lstrip()[:4] in ['>>> ', '... ']`. -/
def block_indicated (line : String) : Bool :=
  pyTake (pyLstrip line) 4 == ">>> " || pyTake (pyLstrip line) 4 == "... "

/-- The tab-expanded line of `_process_doctest_codeblock`. -/
def processed_line_of (line : String) : String :=
  let whitespace := leadingWs line
  expandTabs whitespace ++ pyDrop line whitespace.length

/-- `Preprocessor._process_doctest_codeblock`. -/
def process_doctest_codeblock (st : PState) (line : String) : PState × StageRes :=
  let blank_token := "<BLANKLINE>"
  let indicated := block_indicated line
  let processed := processed_line_of line
  if !st.in_doctest_codeblock then
    if indicated then
      ({ st with in_doctest_codeblock := true,
                 lines := st.lines ++ ["```python", processed] }, .handled)
    else (st, .cont line)
  else if indicated then
    ({ st with lines := st.lines ++ [processed] }, .handled)
  else if pyStrip line == blank_token then
    ({ st with lines := st.lines ++ [""] }, .handled)
  else if !(pyStrip line == "") then
    ({ st with lines := st.lines ++ [processed] }, .handled)
  else
    ({ st with in_doctest_codeblock := false, lines := st.lines ++ ["```"] }, .cont line)

/-- Python `s.split(':', 1)` when `':' in s`: the parts before and after the
first colon. -/
def splitColon (s : String) : String × String :=
  (⟨s.data.takeWhile (· != ':')⟩, ⟨(s.data.dropWhile (· != ':')).drop 1⟩)

/-- The section-specific rewrite at the end of `_process_line` (the
`if self._current_section in (...)` chain), applied to the indent-stripped line. -/
def rewrite_section (sec : Option String) (line : String) : String :=
  match sec with
  | some "Arguments" =>
    if pyContainsChar line ':' then
      let a := (splitColon (pyStrip line)).1
      let b := (splitColon (pyStrip line)).2
      if !(pyStrip a == "") && !(pyStrip b == "") then "* __" ++ a ++ "__: " ++ b else line
    else line
  | some "Attributes" | some "Raises" =>
    if pyContainsChar line ':' then
      let a := (splitColon (pyStrip line)).1
      let b := (splitColon (pyStrip line)).2
      if !(pyStrip a == "") && !(pyStrip b == "") then "* `" ++ a ++ "`: " ++ b else line
    else line
  | some "Returns" | some "Yields" =>
    if pyContainsChar line ':' then
      let a := (splitColon (pyStrip line)).1
      let b := (splitColon (pyStrip line)).2
      if !(pyStrip a == "") && !(pyStrip b == "") then "`" ++ a ++ "`:" ++ b else line
    else line
  | _ => line

/-- The non-header path of `_process_line`: indent tracking, the
`line = line[self.indent:]` slice, then the section rewrite. -/
def process_line_body (st : PState) (line : String) : PState × String :=
  let wsLen : Int := (leadingWs line).length
  let st1 :=
    if st.indent = -1 then { st with indent := wsLen }
    else if wsLen < st.indent then { st with current_section := none, indent := 0 }
    else st
  let line1 := pyDrop line st1.indent.toNat
  (st1, rewrite_section st1.current_section line1)

/-- `Preprocessor._process_line`. -/
def process_line (st : PState) (line : String) : PState × String :=
  if pyStrip line == "" then (st, line)
  else
    match headerName (pyRstrip line) with
    | some g =>
      match valid_sections.lookup (pyLower (pyStrip g)) with
      | some canon =>
        ({ st with current_section := some canon, indent := -1 }, "__" ++ canon ++ "__\n")
      | none => process_line_body st line
    | none => process_line_body st line

/-- One iteration of the loop in `preprocess_section`: the three stages with
the `LineFinished` short-circuit, then `self._lines.append(line)`. -/
def processOneLine (st : PState) (line : String) : PState :=
  match process_codeblock st line with
  | (st1, .handled) => st1
  | (st1, .cont l1) =>
    match process_doctest_codeblock st1 l1 with
    | (st2, .handled) => st2
    | (st2, .cont l2) =>
      let r := process_line st2 l2
      { r.1 with lines := r.1.lines ++ [r.2] }

/-- The whole `for line in section.content.split('\n')` loop. -/
def processLines (st : PState) (ls : List String) : PState := ls.foldl processOneLine st

/-- Character class `[\w\d\._]` of `_preprocess_refs` (ASCII `\w`). -/
def refChar (c : Char) : Bool := c.isAlphanum || c == '.' || c == '_'

/-- The `handler` of `_preprocess_refs`: wraps the reference in backticks,
keeping a trailing dot (when there are no parens) outside the code span. -/
def refHandler (ref : List Char) (parens : Bool) : List Char :=
  if !parens && ref.getLast? == some '.' then
    '`' :: (ref.dropLast ++ ['`', '.'])
  else
    '`' :: (ref ++ (if parens then ['(', ')', '`'] else ['`']))

/-- The optional `(?P<parens>\(\))?` group: whether the text starts with the
literal `()` and the remainder after it. -/
def parensSplit : List Char → Bool × List Char
  | d :: e :: r2 => if d = '(' ∧ e = ')' then (true, r2) else (false, d :: e :: r2)
  | rem => (false, rem)

/-- Matches `#(?P<ref>[\w\d\._]+)(?P<parens>\(\))?` at the head of `cs`, with
an already-consumed prefix `pre`; returns the replacement text and the rest. -/
def matchCore (pre : List Char) (cs : List Char) : Option (List Char × List Char) :=
  match cs with
  | c :: r =>
    if c = '#' then
      let ref := r.takeWhile refChar
      if ref.isEmpty then none
      else
        let ps := parensSplit (r.dropWhile refChar)
        some (pre ++ refHandler ref ps.1, ps.2)
    else none
  | [] => none

/-- The `' '`/`'\t'` alternatives of the `(?P<prefix>^| |\t)` group. -/
def trySpaceTab (cs : List Char) : Option (List Char × List Char) :=
  match cs with
  | c :: r => if c == ' ' || c == '\t' then matchCore [c] r else none
  | [] => none

/-- One match attempt of the `_preprocess_refs` pattern at the current scan
position; `atStart` tells whether the `^` alternative of the prefix group can
apply (Python tries `^` before `' '` and `'\t'`). -/
def tryMatch (atStart : Bool) (cs : List Char) : Option (List Char × List Char) :=
  if atStart then
    match matchCore [] cs with
    | some res => some res
    | none => trySpaceTab cs
  else trySpaceTab cs

/-- The left-to-right scan of `re.sub`: attempt a match at each position; on a
match, emit the replacement and resume after it, else emit one character.  The
fuel argument only drives termination; `cs.length` is always enough. -/
def scanFuel : Nat → Bool → List Char → List Char
  | 0, _, cs => cs
  | _ + 1, _, [] => []
  | n + 1, atStart, c :: cs =>
    match tryMatch atStart (c :: cs) with
    | some (rep, rest) => rep ++ scanFuel n false rest
    | none => c :: scanFuel n false cs

/-- `Preprocessor._preprocess_refs`. -/
def preprocess_refs (content : String) : String :=
  ⟨scanFuel content.data.length true content.data⟩

/-- The signature escaping in `preprocess_section`:
`for char in r'\*_': sig = sig.replace(char, '\\' + char)`. -/
def escapeSig (sig : String) : String :=
  ⟨pyReplaceChar '_' ['\\', '_']
    (pyReplaceChar '*' ['\\', '*']
      (pyReplaceChar '\\' ['\\', '\\'] sig.data))⟩

/-- The title produced for a truthy `sig`: the escaped signature, plus the
`'  {{#{}}}'.format(sig.split('(', 1)[0])` anchor when `markdown_header_id`
is configured (note the code applies `split` to the already escaped `sig`). -/
def mkTitle (sig : String) (anchor : Bool) : String :=
  if anchor then
    escapeSig sig ++ "  \x7b#" ++
      (⟨(escapeSig sig).data.takeWhile (· != '(')⟩ : String) ++ "\x7d"
  else escapeSig sig

/-- Splits a character list at every newline (Python `content.split('\n')`). -/
def splitNl : List Char → List (List Char)
  | [] => [[]]
  | '\n' :: cs => [] :: splitNl cs
  | c :: cs =>
    match splitNl cs with
    | [] => [[c]]
    | h :: t => (c :: h) :: t

/-- Python `content.split('\n')`. -/
def pySplitNl (s : String) : List String := (splitNl s.data).map (fun l => ⟨l⟩)

/-- Python `'\n'.join(lines)`. -/
def joinNl : List String → String
  | [] => ""
  | [l] => l
  | l :: ls => l ++ "\n" ++ joinNl ls

/-- The field resets at the top of `preprocess_section` (note: `self.indent`
is not among them). -/
def resetState (st : PState) : PState :=
  { st with current_section := none, in_codeblock := false,
            in_doctest_codeblock := false, lines := [] }

/-- `Preprocessor.preprocess_section`: returns the new title (`none` when the
`sig` is falsy, so `section.title` is left untouched), the rewritten content,
and the processor state after the call. -/
def preprocess_section (st : PState) (content : String) (sig : Option String)
    (anchor : Bool) : Option String × String × PState :=
  let st0 := resetState st
  let title : Option String :=
    match sig with
    | some s => if s == "" then none else some (mkTitle s anchor)
    | none => none
  let st1 := processLines st0 (pySplitNl content)
  (title, preprocess_refs (joinNl st1.lines), st1)

/-! ## Closed evaluations -/

/-- C2: processing the four-line transcript block `>>> x = 1`, `>>> x`, `1`,
and a blank line (no fence or section active) yields exactly an opening fence
tagged `python`, the three lines unchanged, a closing fence, and the blank
line. -/
theorem c2_transcript_block :
    (processLines initState [">>> x = 1", ">>> x", "1", ""]).lines =
      ["```python", ">>> x = 1", ">>> x", "1", "```", ""] := by decide

/-- C4 counterexample: with section `Arguments` and indent baseline 4, the body
line `"    x: the input value"` is not rewritten to `"* __x__: the input value"`
(single space after the colon) as the claim states. -/
theorem c4_counterexample :
    (process_line
      { current_section := some "Arguments", in_codeblock := false,
        in_doctest_codeblock := false, indent := 4, lines := [] }
      "    x: the input value").2 ≠ "* __x__: the input value" := by decide

/-- C4 amended: the rewrite is `"* __x__:  the input value"` with two spaces
after the colon, because `split(':', 1)` leaves the description's leading space
in place and the format string `'* __{}__: {}'` adds another one. -/
theorem c4_theorem :
    (process_line
      { current_section := some "Arguments", in_codeblock := false,
        in_doctest_codeblock := false, indent := 4, lines := [] }
      "    x: the input value").2 = "* __x__:  the input value" := by decide

/-- C6: the reference post-pass maps `"#foo.bar() does X."` to
`` "`foo.bar()` does X." `` (reference plus empty parens in one code span, the
rest untouched) and `"#foo."` to `` "`foo`." `` (trailing dot outside the
span). -/
theorem c6_refs :
    preprocess_refs "#foo.bar() does X." = "`foo.bar()` does X." ∧
    preprocess_refs "#foo." = "`foo`." := by
  exact ⟨by decide, by decide⟩

/-- C1 counterexample.  First conjunct: on the input lines `Args:`,
``` ``` ``` and `` ```x: y ``, the claim predicts the third line (the one
toggling `inFence` back to false) to be appended verbatim, but the code does
not short-circuit it: it falls through to `_process_line` and is rewritten to
`* __```x__:  y`.  Second conjunct: a marker behind leading whitespace
(`"  ```"`) does not toggle the flag — `line.startswith` does not ignore
leading content — so the following `Args:` line is still rewritten rather than
passed through as fenced content. -/
theorem c1_counterexample :
    ¬ (processLines initState ["Args:", "```", "```x: y"]).lines =
        ["__Arguments__\n", "```", "```x: y"] ∧
      ¬ (processLines initState ["  ```", "Args:"]).lines = ["  ```", "Args:"] :=
  ⟨by decide, by decide⟩

/-- C7 counterexample: for signature `f_g(x)` with the anchor option enabled,
the produced title is `f\_g(x)  {#f\_g}` — the anchor is taken from the
escaped signature — not `f\_g(x)  {#f_g}` as the claim (anchor from the raw
signature text) states. -/
theorem c7_counterexample :
    mkTitle "f_g(x)" true ≠ "f\\_g(x)  \x7b#f_g\x7d" := by decide

/-- C9 counterexample: `preprocess_section` does not reset `self.indent`, so a
processor that previously handled `"Args:\n    x: y"` (leaving `indent = 4`)
rewrites the next section `"      deep"` to `"  deep"`, while a fresh processor
leaves it as `"      deep"`. -/
theorem c9_counterexample :
    (preprocess_section
        (preprocess_section initState "Args:\n    x: y" none false).2.2
        "      deep" none false).2.1 ≠
      (preprocess_section initState "      deep" none false).2.1 := by decide

/-! ## Basic unfolding lemmas -/

theorem processLines_nil (st : PState) : processLines st [] = st := rfl

theorem processLines_cons (st : PState) (l : String) (ls : List String) :
    processLines st (l :: ls) = processLines (processOneLine st l) ls := rfl

theorem processLines_append (st : PState) (xs ys : List String) :
    processLines st (xs ++ ys) = processLines (processLines st xs) ys := by
  simp [processLines, List.foldl_append]

/-! ## C9: the result depends only on the inputs and the carried-over indent -/

/-- C9 amended: `preprocess_section` re-initialises every mutable field except
`self.indent`, so two runs on the same `(content, sig, config)` coincide
whenever the two processors carry the same `indent` value (in particular
whenever both are fresh). -/
theorem c9_theorem (st1 st2 : PState) (content : String) (sig : Option String)
    (anchor : Bool) (h : st1.indent = st2.indent) :
    preprocess_section st1 content sig anchor = preprocess_section st2 content sig anchor := by
  have hr : resetState st1 = resetState st2 := by
    cases st1; cases st2; simp only [resetState]
    simp_all
  unfold preprocess_section
  rw [hr]

/-- C9 witness: a fresh processor and a processor with stale section, fence,
transcript and line state (but the initial indent 0) produce the same result. -/
theorem c9_witness :
    initState.indent =
        (⟨some "Arguments", true, true, 0, ["junk"]⟩ : PState).indent ∧
      preprocess_section initState "a: b\nArgs:" (some "f(x)") true =
        preprocess_section (⟨some "Arguments", true, true, 0, ["junk"]⟩ : PState)
          "a: b\nArgs:" (some "f(x)") true :=
  ⟨rfl, c9_theorem _ _ _ _ _ rfl⟩

/-! ## C1: fenced lines -/

/-- Inside an open fence, every line not starting with a triple backtick is
appended verbatim by `_process_codeblock` and short-circuits the pipeline. -/
theorem processLines_fenced (body : List String) : ∀ st : PState,
    st.in_codeblock = true → (∀ l ∈ body, pyStartsWith l "```" = false) →
    processLines st body = { st with lines := st.lines ++ body } := by
  induction body with
  | nil => intro st h1 _; cases st; simp [processLines]
  | cons l ls ih =>
    intro st h1 h2
    have hl : pyStartsWith l "```" = false := h2 l (by simp)
    have h3 : processOneLine st l = { st with lines := st.lines ++ [l] } := by
      simp [processOneLine, process_codeblock, hl, h1]
    rw [processLines_cons, h3, ih _ (by simp [h1]) (fun x hx => h2 x (by simp [hx]))]
    simp

/-- C1 amended: the opening fence line and all interior lines are appended to
the output verbatim with the rest of the pipeline short-circuited, but the
closing line — the one that toggles `inFence` back to false — is *not*
short-circuited: `_process_codeblock` clears the flag and passes it on to the
rest of the per-line pipeline.  Also, the marker must be at the very start of
the line (`line.startswith`), leading whitespace not ignored. -/
theorem c1_theorem (st : PState) (openL closeL : String) (body : List String)
    (h0 : st.in_codeblock = false)
    (h1 : pyStartsWith openL "```" = true)
    (h2 : ∀ l ∈ body, pyStartsWith l "```" = false)
    (h3 : pyStartsWith closeL "```" = true) :
    processLines st (openL :: (body ++ [closeL])) =
        processOneLine
          { st with in_codeblock := true, lines := st.lines ++ openL :: body } closeL ∧
      process_codeblock
          { st with in_codeblock := true, lines := st.lines ++ openL :: body } closeL =
        ({ st with in_codeblock := false, lines := st.lines ++ openL :: body },
          StageRes.cont closeL) := by
  constructor
  · have hopen : processOneLine st openL =
        { st with in_codeblock := true, lines := st.lines ++ [openL] } := by
      simp [processOneLine, process_codeblock, h1, h0]
    rw [processLines_cons, hopen, processLines_append,
      processLines_fenced body _ rfl h2]
    simp [processLines_cons, processLines_nil]
  · simp [process_codeblock, h3]

/-- C1 witness: a concrete fenced run (open, one interior line, close). -/
theorem c1_witness :
    initState.in_codeblock = false ∧
      pyStartsWith "```" "```" = true ∧
      (∀ l ∈ ["Args:"], pyStartsWith l "```" = false) ∧
      (processLines initState ("```" :: (["Args:"] ++ ["```"])) =
          processOneLine
            { initState with in_codeblock := true,
                             lines := initState.lines ++ "```" :: ["Args:"] } "```" ∧
        process_codeblock
            { initState with in_codeblock := true,
                             lines := initState.lines ++ "```" :: ["Args:"] } "```" =
          ({ initState with in_codeblock := false,
                            lines := initState.lines ++ "```" :: ["Args:"] },
            StageRes.cont "```")) :=
  ⟨rfl, by decide, by decide,
    c1_theorem initState "```" "```" ["Args:"] rfl (by decide) (by decide) (by decide)⟩

/-! ## C3: recognized section headers -/

/-- A line whose rstripped form matches the header regex with a recognized
alias before the colon. -/
def isHeaderAlias (line : String) : Bool :=
  match headerName (pyRstrip line) with
  | some g => (valid_sections.lookup (pyLower (pyStrip g))).isSome
  | none => false

theorem dropWhile_of_head_false {p : Char → Bool} {c : Char} {cs : List Char}
    (h : p c = false) : (c :: cs).dropWhile p = c :: cs := by
  simp [List.dropWhile_cons, h]

/-- An ASCII letter is none of the special characters the pipeline tests for. -/
theorem isAlpha_not_special {c : Char} (h : c.isAlpha = true) :
    c ≠ '`' ∧ c ≠ '>' ∧ c ≠ '.' ∧ c ≠ ':' ∧ c ≠ '\n' ∧ pySpace c = false := by
  refine ⟨?_, ?_, ?_, ?_, ?_, ?_⟩
  · intro e; rw [e] at h; exact absurd h (by decide)
  · intro e; rw [e] at h; exact absurd h (by decide)
  · intro e; rw [e] at h; exact absurd h (by decide)
  · intro e; rw [e] at h; exact absurd h (by decide)
  · intro e; rw [e] at h; exact absurd h (by decide)
  · cases hp : pySpace c with
    | false => rfl
    | true =>
      exfalso
      simp only [pySpace, Bool.or_eq_true, decide_eq_true_eq] at hp
      rcases hp with ((((e | e) | e) | e) | e) | e <;> rw [e] at h <;>
        exact absurd h (by decide)

theorem dropWhile_of_all_false {p : Char → Bool} :
    ∀ {l : List Char}, (∀ c ∈ l, p c = false) → l.dropWhile p = l := by
  intro l h
  cases l with
  | nil => rfl
  | cons a as => exact dropWhile_of_head_false (h a (by simp))

/-- Dropping a `p`-true run before a list leaves the tail's `dropWhile`
unchanged. -/
theorem dropWhile_append_of_all_true {p : Char → Bool} :
    ∀ {xs : List Char}, (∀ x ∈ xs, p x = true) → ∀ ys : List Char,
      (xs ++ ys).dropWhile p = ys.dropWhile p := by
  intro xs
  induction xs with
  | nil => intro _ ys; rfl
  | cons a as ih =>
    intro h ys
    rw [List.cons_append, List.dropWhile_cons, if_pos (h a (by simp))]
    exact ih (fun x hx => h x (by simp [hx])) ys

/-- C3: a line that, after trimming trailing whitespace, consists of a
recognized alias (in arbitrary letter case) followed by a single colon and
nothing else — i.e. any line of the form `s ++ ":" ++ w` with `w` trailing
whitespace, which the code's `rstrip` removes — processed outside fence and
transcript modes, sets `_current_section` to the canonical name, resets
`self.indent` to the `-1` sentinel, and appends exactly the strong-emphasis
marker of the canonical name followed by a trailing newline (which joins into
a blank line); the original colon-header line does not appear in the output. -/
theorem c3_theorem (st : PState) (s w key canon : String)
    (hcb : st.in_codeblock = false) (hdt : st.in_doctest_codeblock = false)
    (halpha : ∀ c ∈ s.data, c.isAlpha = true)
    (hw : ∀ c ∈ w.data, pySpace c = true)
    (hlow : pyLower s = key)
    (hlook : valid_sections.lookup key = some canon) :
    processOneLine st (s ++ ":" ++ w) =
      { st with current_section := some canon, indent := -1,
                lines := st.lines ++ ["__" ++ canon ++ "__\n"] } := by
  have hcolon : (":" : String).data = [':'] := rfl
  obtain ⟨c, cs, hs⟩ : ∃ c cs, s.data = c :: cs := by
    cases hd : s.data with
    | nil =>
      exfalso
      have hkey : key = "" := by
        rw [← hlow]; unfold pyLower; rw [hd]; rfl
      rw [hkey] at hlook
      have hnone : valid_sections.lookup "" = none := by decide
      rw [hnone] at hlook
      exact Option.noConfusion hlook
    | cons c cs => exact ⟨c, cs, rfl⟩
  have hc : c.isAlpha = true := halpha c (by rw [hs]; simp)
  obtain ⟨hbt, hgt, hdot, _, _, hsp⟩ := isAlpha_not_special hc
  have hdata : (s ++ ":" ++ w).data = c :: (cs ++ ':' :: w.data) := by
    rw [String.data_append, String.data_append, hcolon, hs]
    simp
  have hdata2 : (s ++ ":").data = c :: (cs ++ [':']) := by
    rw [String.data_append, hcolon, hs]; rfl
  have h_start : pyStartsWith (s ++ ":" ++ w) "```" = false := by
    have hbc : ('`' == c) = false := beq_eq_false_iff_ne.mpr (Ne.symm hbt)
    simp only [pyStartsWith, hdata]
    show List.isPrefixOf ['`', '`', '`'] (c :: (cs ++ ':' :: w.data)) = false
    simp [List.isPrefixOf, hbc]
  have h_lstrip : pyLstrip (s ++ ":" ++ w) = s ++ ":" ++ w := by
    unfold pyLstrip
    rw [hdata, dropWhile_of_head_false hsp]
    exact String.ext hdata.symm
  have h_rstrip : pyRstrip (s ++ ":" ++ w) = s ++ ":" := by
    have hrev : (s ++ ":" ++ w).data.reverse = w.data.reverse ++ ':' :: s.data.reverse := by
      rw [String.data_append, String.data_append, hcolon]
      simp
    have hwr : ∀ x ∈ w.data.reverse, pySpace x = true :=
      fun x hx => hw x (List.mem_reverse.mp hx)
    unfold pyRstrip
    rw [hrev, dropWhile_append_of_all_true hwr, dropWhile_of_head_false (by decide)]
    refine String.ext ?_
    rw [String.data_append, hcolon]
    simp
  have h_strip : pyStrip (s ++ ":" ++ w) = s ++ ":" := by
    unfold pyStrip
    rw [h_rstrip]
    unfold pyLstrip
    rw [hdata2, dropWhile_of_head_false hsp]
    exact String.ext hdata2.symm
  have h_ne : s ++ ":" ≠ "" := by
    intro e
    have h' := congrArg String.data e
    rw [hdata2] at h'
    simp at h'
  have h_nonblank : (pyStrip (s ++ ":" ++ w) == "") = false := by
    rw [h_strip]; exact beq_eq_false_iff_ne.mpr h_ne
  have h_header : headerName (pyRstrip (s ++ ":" ++ w)) = some s := by
    rw [h_rstrip]
    unfold headerName
    have h1 : 2 ≤ (s ++ ":").data.length := by rw [hdata2]; simp
    have h2 : (s ++ ":").data.getLast? = some ':' := by
      rw [String.data_append, hcolon]; exact List.getLast?_concat _
    have h3 : '\n' ∉ (s ++ ":").data.dropLast := by
      rw [String.data_append, hcolon, List.dropLast_concat]
      intro hm
      exact absurd (halpha _ hm) (by decide)
    rw [if_pos ⟨h1, h2, h3⟩]
    exact congrArg some (String.ext (by rw [String.data_append, hcolon, List.dropLast_concat]))
  have hns : ∀ x ∈ s.data, pySpace x = false :=
    fun x hx => (isAlpha_not_special (halpha x hx)).2.2.2.2.2
  have h_gstrip : pyStrip s = s := by
    unfold pyStrip pyRstrip pyLstrip
    rw [dropWhile_of_all_false (fun x hx => hns x (List.mem_reverse.mp hx))]
    simp only [List.reverse_reverse]
    rw [dropWhile_of_all_false hns]
  have hA : process_codeblock st (s ++ ":" ++ w) = (st, .cont (s ++ ":" ++ w)) := by
    simp [process_codeblock, h_start, hcb]
  have htk1 : (pyTake (pyLstrip (s ++ ":" ++ w)) 4 == ">>> ") = false := by
    rw [h_lstrip]
    refine beq_eq_false_iff_ne.mpr ?_
    intro e
    have h' := congrArg String.data e
    simp only [pyTake, hdata] at h'
    rw [show (4 : Nat) = 3 + 1 from rfl, List.take_succ_cons, List.cons_eq_cons] at h'
    exact hgt h'.1
  have htk2 : (pyTake (pyLstrip (s ++ ":" ++ w)) 4 == "... ") = false := by
    rw [h_lstrip]
    refine beq_eq_false_iff_ne.mpr ?_
    intro e
    have h' := congrArg String.data e
    simp only [pyTake, hdata] at h'
    rw [show (4 : Nat) = 3 + 1 from rfl, List.take_succ_cons, List.cons_eq_cons] at h'
    exact hdot h'.1
  have hbi : block_indicated (s ++ ":" ++ w) = false := by
    unfold block_indicated
    rw [htk1, htk2]
    rfl
  have hB : process_doctest_codeblock st (s ++ ":" ++ w) = (st, .cont (s ++ ":" ++ w)) := by
    simp [process_doctest_codeblock, hdt, hbi]
  have hC : process_line st (s ++ ":" ++ w) =
      ({ st with current_section := some canon, indent := -1 }, "__" ++ canon ++ "__\n") := by
    simp [process_line, h_nonblank, h_header, h_gstrip, hlow, hlook]
  simp [processOneLine, hA, hB, hC]

/-- C3 witness: the upper-case alias line `ARGS:` carrying trailing whitespace
(`" \t"`), on a processor with stale indent and lines. -/
theorem c3_witness :
    ((⟨some "Raises", false, false, 7, ["prev"]⟩ : PState).in_codeblock = false) ∧
      (∀ c ∈ "ARGS".data, c.isAlpha = true) ∧
      (∀ c ∈ " \t".data, pySpace c = true) ∧
      pyLower "ARGS" = "args" ∧
      valid_sections.lookup "args" = some "Arguments" ∧
      processOneLine (⟨some "Raises", false, false, 7, ["prev"]⟩ : PState)
          ("ARGS" ++ ":" ++ " \t") =
        { (⟨some "Raises", false, false, 7, ["prev"]⟩ : PState) with
            current_section := some "Arguments", indent := -1,
            lines := (⟨some "Raises", false, false, 7, ["prev"]⟩ : PState).lines ++
              ["__" ++ "Arguments" ++ "__\n"] } :=
  ⟨rfl, by decide, by decide, by decide, by decide,
    c3_theorem _ "ARGS" " \t" "args" "Arguments" rfl rfl (by decide) (by decide)
      (by decide) (by decide)⟩

/-! ## C5: indentation drop ends the section -/

/-- Runs `_process_line` over consecutive lines, threading the state and
collecting the returned lines. -/
def processLineSeq (st : PState) : List String → List String × PState
  | [] => ([], st)
  | l :: ls =>
    ((process_line st l).2 :: (processLineSeq (process_line st l).1 ls).1,
      (processLineSeq (process_line st l).1 ls).2)

theorem pyDrop_zero (s : String) : pyDrop s 0 = s := rfl

/-- If a line is not a recognized header, the regex may still match but the
alias lookup fails. -/
theorem lookup_none_of_not_header {l g : String}
    (hh : headerName (pyRstrip l) = some g) (hl : isHeaderAlias l = false) :
    valid_sections.lookup (pyLower (pyStrip g)) = none := by
  have hl2 : (valid_sections.lookup (pyLower (pyStrip g))).isSome = false := by
    unfold isHeaderAlias at hl
    rw [hh] at hl
    exact hl
  cases hlk : valid_sections.lookup (pyLower (pyStrip g)) with
  | none => rfl
  | some v => rw [hlk] at hl2; simp at hl2

theorem rewrite_section_none (l : String) : rewrite_section none l = l := rfl

/-- With no active section and a zero indent baseline, `_process_line` returns
every non-header line unchanged and does not touch the state. -/
theorem process_line_plain (st : PState) (l : String)
    (h1 : st.current_section = none) (h2 : st.indent = 0)
    (hl : isHeaderAlias l = false) :
    process_line st l = (st, l) := by
  have c1 : ¬ ((0 : Int) = -1) := by decide
  have c2 : ¬ (((leadingWs l).length : Int) < 0) := by omega
  have hbody : process_line_body st l = (st, l) := by
    unfold process_line_body
    rw [h2]
    simp only [if_neg c1, if_neg c2]
    rw [h2, show Int.toNat 0 = 0 from rfl, pyDrop_zero, h1, rewrite_section_none]
  cases hv : (pyStrip l == "") with
  | true => simp [process_line, hv]
  | false =>
    cases hh : headerName (pyRstrip l) with
    | none => simp [process_line, hv, hh, hbody]
    | some g =>
      have hnone := lookup_none_of_not_header hh hl
      simp [process_line, hv, hh, hnone, hbody]

/-- With no active section and zero baseline, a run of non-header lines passes
through `_process_line` completely unchanged. -/
theorem processLineSeq_plain (ls : List String) : ∀ st : PState,
    st.current_section = none → st.indent = 0 →
    (∀ l ∈ ls, isHeaderAlias l = false) →
    processLineSeq st ls = (ls, st) := by
  induction ls with
  | nil => intro st _ _ _; rfl
  | cons l ls ih =>
    intro st h1 h2 h3
    have hp := process_line_plain st l h1 h2 (h3 l (by simp))
    simp only [processLineSeq, hp]
    rw [ih st h1 h2 (fun x hx => h3 x (by simp [hx]))]

/-- C5: while a structured section is active with an established baseline `k`,
a non-blank non-header line whose leading whitespace is shorter than `k` ends
the section — `_current_section` is cleared, `self.indent` resets to 0 — and
that line and all following non-header lines pass through the section rewriter
unchanged, colons notwithstanding. -/
theorem c5_theorem (st : PState) (sec l : String) (ls : List String) (k : Nat)
    (hsec : st.current_section = some sec) (hind : st.indent = (k : Int))
    (hnb : (pyStrip l == "") = false) (hnh : isHeaderAlias l = false)
    (hws : (leadingWs l).length < k)
    (hls : ∀ x ∈ ls, isHeaderAlias x = false) :
    processLineSeq st (l :: ls) =
      (l :: ls, { st with current_section := none, indent := 0 }) := by
  have c1 : ¬ (((k : Nat) : Int) = -1) := by omega
  have c2 : (((leadingWs l).length : Int) < ((k : Nat) : Int)) := by exact_mod_cast hws
  have hbody : process_line_body st l =
      ({ st with current_section := none, indent := 0 }, l) := by
    unfold process_line_body
    rw [hind]
    simp only [if_neg c1, if_pos c2]
    rw [show Int.toNat 0 = 0 from rfl, pyDrop_zero, rewrite_section_none]
  have hfirst : process_line st l =
      ({ st with current_section := none, indent := 0 }, l) := by
    cases hh : headerName (pyRstrip l) with
    | none => simp [process_line, hnb, hh, hbody]
    | some g =>
      have hnone := lookup_none_of_not_header hh hnh
      simp [process_line, hnb, hh, hnone, hbody]
  simp only [processLineSeq, hfirst]
  rw [processLineSeq_plain ls _ rfl rfl hls]

/-- C5 witness: an active `Arguments` section with baseline 4 ended by a
colon-carrying line with no indentation; the follow-up colon line is also left
unrewritten. -/
theorem c5_witness :
    ((⟨some "Arguments", false, false, 4, []⟩ : PState).current_section = some "Arguments") ∧
      ((⟨some "Arguments", false, false, 4, []⟩ : PState).indent = ((4 : Nat) : Int)) ∧
      (pyStrip "x: y" == "") = false ∧ isHeaderAlias "x: y" = false ∧
      (leadingWs "x: y").length < 4 ∧
      (∀ x ∈ ["a: b"], isHeaderAlias x = false) ∧
      processLineSeq (⟨some "Arguments", false, false, 4, []⟩ : PState) ("x: y" :: ["a: b"]) =
        ("x: y" :: ["a: b"],
          { (⟨some "Arguments", false, false, 4, []⟩ : PState) with
              current_section := none, indent := 0 }) :=
  ⟨rfl, rfl, by decide, by decide, by decide, by decide,
    c5_theorem _ "Arguments" "x: y" ["a: b"] 4 rfl rfl (by decide) (by decide)
      (by decide) (by decide)⟩

/-! ## C7: signature escaping and the anchor -/

theorem data_mk (l : List Char) : (⟨l⟩ : String).data = l := rfl

/-- One-pass escaping of the Markdown metacharacters, per character. -/
def escChar (c : Char) : List Char :=
  if c = '\\' ∨ c = '*' ∨ c = '_' then ['\\', c] else [c]

theorem charExpand_append (f : Char → List Char) (a b : List Char) :
    charExpand f (a ++ b) = charExpand f a ++ charExpand f b := by
  induction a with
  | nil => rfl
  | cons c a ih => simp [charExpand, ih]

/-- The three sequential `str.replace` calls of `preprocess_section` amount to
escaping each original character once. -/
theorem escape_eq (l : List Char) :
    pyReplaceChar '_' ['\\', '_']
        (pyReplaceChar '*' ['\\', '*'] (pyReplaceChar '\\' ['\\', '\\'] l)) =
      charExpand escChar l := by
  induction l with
  | nil => rfl
  | cons c l ih =>
    simp only [pyReplaceChar] at *
    rw [show charExpand (fun x => if x = '\\' then ['\\', '\\'] else [x]) (c :: l) =
        (if c = '\\' then ['\\', '\\'] else [c]) ++
          charExpand (fun x => if x = '\\' then ['\\', '\\'] else [x]) l from rfl]
    rw [charExpand_append, charExpand_append, ih]
    show _ ++ _ = escChar c ++ _
    congr 1
    by_cases h1 : c = '\\'
    · subst h1; simp [charExpand, escChar]
    by_cases h2 : c = '*'
    · subst h2; simp [charExpand, escChar]
    by_cases h3 : c = '_'
    · subst h3; simp [charExpand, escChar]
    · simp [charExpand, escChar, h1, h2, h3]

/-- Escaping commutes with cutting at the first `'('`. -/
theorem escChar_takeWhile (l : List Char) :
    (charExpand escChar l).takeWhile (· != '(') =
      charExpand escChar (l.takeWhile (· != '(')) := by
  induction l with
  | nil => rfl
  | cons c l ih =>
    by_cases h : c = '('
    · subst h
      simp [charExpand, escChar, List.takeWhile_cons]
    · by_cases h2 : c = '\\' ∨ c = '*' ∨ c = '_'
      · have hc : (c != '(') = true := by simp [h]
        simp [charExpand, escChar, h2, List.takeWhile_cons, hc, ih]
      · have hc : (c != '(') = true := by simp [h]
        simp [charExpand, escChar, h2, List.takeWhile_cons, hc, ih]

/-- C7 amended: for a non-empty signature, the produced title is the signature
with every backslash, asterisk and underscore prefixed by a backslash, and with
the anchor option on it additionally ends in `  {#N}` where `N` is the
*escaped* signature text up to its first `'('` (equivalently, the escape of the
raw text before the first `'('`). -/
theorem c7_theorem (sig : String) (hne : sig ≠ "") (anchor : Bool) :
    mkTitle sig anchor =
      (⟨charExpand escChar sig.data⟩ : String) ++
        (if anchor then
          "  \x7b#" ++
            (⟨charExpand escChar (sig.data.takeWhile (· != '('))⟩ : String) ++ "\x7d"
        else "") := by
  refine String.ext ?_
  unfold mkTitle escapeSig
  cases anchor with
  | false => simp [String.data_append, data_mk, escape_eq]
  | true => simp [String.data_append, data_mk, escape_eq, escChar_takeWhile]

/-- C7 witness: the concrete signature `a_b(c)` with the anchor enabled. -/
theorem c7_witness :
    ("a_b(c)" : String) ≠ "" ∧
      mkTitle "a_b(c)" true =
        (⟨charExpand escChar "a_b(c)".data⟩ : String) ++
          (if true then
            "  \x7b#" ++
              (⟨charExpand escChar ("a_b(c)".data.takeWhile (· != '('))⟩ : String) ++ "\x7d"
          else "") :=
  ⟨by decide, c7_theorem "a_b(c)" (by decide) true⟩

/-! ## C8: the exception flow

A second rendition of the pipeline in which each stage returns
`Except PyExn String` exactly where the Python code can raise: the fence and
doctest stages raise `LineFinished`, and the unguarded `split(':', 1)` inside
`_process_line` would raise a `ValueError` were its `':' in line` guard absent.
The loop in `preprocess_section` catches `LineFinished` only; anything else
would escape to the caller.  C8 states that the result is always `ok`. -/

/-- The exceptions the pipeline can raise: the internal `LineFinished` signal,
and Python's `ValueError` from an unpacked `split` with no separator. -/
inductive PyExn where
  | lineFinished : PyExn
  | valueError : PyExn
deriving DecidableEq, Repr

/-- `_process_codeblock` with the `raise LineFinished()` explicit. -/
def process_codeblockE (st : PState) (line : String) : PState × Except PyExn String :=
  let st1 := if pyStartsWith line "```" then { st with in_codeblock := !st.in_codeblock } else st
  if st1.in_codeblock then
    ({ st1 with lines := st1.lines ++ [line] }, .error .lineFinished)
  else (st1, .ok line)

/-- `_process_doctest_codeblock` with the `raise LineFinished` explicit. -/
def process_doctest_codeblockE (st : PState) (line : String) :
    PState × Except PyExn String :=
  let blank_token := "<BLANKLINE>"
  let indicated := block_indicated line
  let processed := processed_line_of line
  if !st.in_doctest_codeblock then
    if indicated then
      ({ st with in_doctest_codeblock := true,
                 lines := st.lines ++ ["```python", processed] }, .error .lineFinished)
    else (st, .ok line)
  else if indicated then
    ({ st with lines := st.lines ++ [processed] }, .error .lineFinished)
  else if pyStrip line == blank_token then
    ({ st with lines := st.lines ++ [""] }, .error .lineFinished)
  else if !(pyStrip line == "") then
    ({ st with lines := st.lines ++ [processed] }, .error .lineFinished)
  else
    ({ st with in_doctest_codeblock := false, lines := st.lines ++ ["```"] }, .ok line)

/-- `a, b = s.split(':', 1)`: raises `ValueError` when there is no colon to
split on. -/
def pySplit1E (s : String) : Except PyExn (String × String) :=
  if pyContainsChar s ':' then .ok (splitColon s) else .error .valueError

/-- The section rewrite with the fallible split explicit. -/
def rewrite_sectionE (sec : Option String) (line : String) : Except PyExn String :=
  match sec with
  | some "Arguments" =>
    if pyContainsChar line ':' then
      match pySplit1E (pyStrip line) with
      | .error e => .error e
      | .ok (a, b) =>
        .ok (if !(pyStrip a == "") && !(pyStrip b == "") then "* __" ++ a ++ "__: " ++ b
             else line)
    else .ok line
  | some "Attributes" | some "Raises" =>
    if pyContainsChar line ':' then
      match pySplit1E (pyStrip line) with
      | .error e => .error e
      | .ok (a, b) =>
        .ok (if !(pyStrip a == "") && !(pyStrip b == "") then "* `" ++ a ++ "`: " ++ b
             else line)
    else .ok line
  | some "Returns" | some "Yields" =>
    if pyContainsChar line ':' then
      match pySplit1E (pyStrip line) with
      | .error e => .error e
      | .ok (a, b) =>
        .ok (if !(pyStrip a == "") && !(pyStrip b == "") then "`" ++ a ++ "`:" ++ b
             else line)
    else .ok line
  | _ => .ok line

/-- The non-header path of `_process_line`, fallible variant. -/
def process_line_bodyE (st : PState) (line : String) : PState × Except PyExn String :=
  let wsLen : Int := (leadingWs line).length
  let st1 :=
    if st.indent = -1 then { st with indent := wsLen }
    else if wsLen < st.indent then { st with current_section := none, indent := 0 }
    else st
  (st1, rewrite_sectionE st1.current_section (pyDrop line st1.indent.toNat))

/-- `_process_line`, fallible variant. -/
def process_lineE (st : PState) (line : String) : PState × Except PyExn String :=
  if pyStrip line == "" then (st, .ok line)
  else
    match headerName (pyRstrip line) with
    | some g =>
      match valid_sections.lookup (pyLower (pyStrip g)) with
      | some canon =>
        ({ st with current_section := some canon, indent := -1 },
          .ok ("__" ++ canon ++ "__\n"))
      | none => process_line_bodyE st line
    | none => process_line_bodyE st line

/-- The three stages chained, errors propagating. -/
def runLineE (st : PState) (line : String) : PState × Except PyExn String :=
  match process_codeblockE st line with
  | (st1, .error e) => (st1, .error e)
  | (st1, .ok l1) =>
    match process_doctest_codeblockE st1 l1 with
    | (st2, .error e) => (st2, .error e)
    | (st2, .ok l2) => process_lineE st2 l2

/-- One loop iteration: `except LineFinished: continue` catches exactly the
`LineFinished` signal; any other exception escapes. -/
def processOneLineE (st : PState) (line : String) : PState × Except PyExn Unit :=
  match runLineE st line with
  | (st1, .ok l3) => ({ st1 with lines := st1.lines ++ [l3] }, .ok ())
  | (st1, .error PyExn.lineFinished) => (st1, .ok ())
  | (st1, .error PyExn.valueError) => (st1, .error PyExn.valueError)

/-- The loop, stopping at the first escaped exception. -/
def processLinesE (st : PState) : List String → PState × Except PyExn Unit
  | [] => (st, .ok ())
  | l :: ls =>
    match processOneLineE st l with
    | (st1, .ok _) => processLinesE st1 ls
    | (st1, .error e) => (st1, .error e)

/-- `preprocess_section`, fallible variant: an exception escaping the loop
reaches the caller as `.error`. -/
def preprocess_sectionE (st : PState) (content : String) (sig : Option String)
    (anchor : Bool) : Except PyExn (Option String × String × PState) :=
  match processLinesE (resetState st) (pySplitNl content) with
  | (st1, .ok _) =>
    .ok
      (match sig with
        | some s => if s == "" then none else some (mkTitle s anchor)
        | none => none,
        preprocess_refs (joinNl st1.lines), st1)
  | (_, .error e) => .error e

theorem mem_dropWhile_of_mem {p : Char → Bool} {c : Char} (hc : p c = false) :
    ∀ {l : List Char}, c ∈ l → c ∈ l.dropWhile p := by
  intro l
  induction l with
  | nil => simp
  | cons a as ih =>
    intro hm
    by_cases hp : p a = true
    · rw [List.dropWhile_cons, if_pos hp]
      rcases List.mem_cons.mp hm with he | hm2
      · rw [he] at hc; rw [hc] at hp; cases hp
      · exact ih hm2
    · rw [List.dropWhile_cons, if_neg hp]; exact hm

/-- A colon in the line survives `str.strip()` (strip removes only
whitespace). -/
theorem colon_in_strip {l : String} (h : pyContainsChar l ':' = true) :
    pyContainsChar (pyStrip l) ':' = true := by
  unfold pyContainsChar at *
  unfold pyStrip pyRstrip pyLstrip
  simp only [data_mk]
  have hm : ':' ∈ l.data := List.mem_of_elem_eq_true h
  have h1 : ':' ∈ l.data.reverse.dropWhile pySpace :=
    mem_dropWhile_of_mem (by decide) (by simpa using hm)
  have h2 : ':' ∈ (l.data.reverse.dropWhile pySpace).reverse := by simpa using h1
  exact List.elem_eq_true_of_mem (mem_dropWhile_of_mem (by decide) h2)

theorem process_codeblockE_eq (st : PState) (l : String) :
    process_codeblockE st l =
      (match process_codeblock st l with
        | (s, .handled) => (s, .error .lineFinished)
        | (s, .cont x) => (s, .ok x)) := by
  by_cases h : pyStartsWith l "```" = true <;>
    by_cases h2 : st.in_codeblock = true <;>
    simp [process_codeblockE, process_codeblock, h, h2]

theorem process_doctest_codeblockE_eq (st : PState) (l : String) :
    process_doctest_codeblockE st l =
      (match process_doctest_codeblock st l with
        | (s, .handled) => (s, .error .lineFinished)
        | (s, .cont x) => (s, .ok x)) := by
  by_cases h1 : st.in_doctest_codeblock = true <;>
    by_cases h2 : block_indicated l = true <;>
    by_cases h3 : (pyStrip l == "<BLANKLINE>") = true <;>
    by_cases h4 : (pyStrip l == "") = true <;>
    simp [process_doctest_codeblockE, process_doctest_codeblock, h1, h2, h3, h4]

theorem rewrite_sectionE_eq (sec : Option String) (l : String) :
    rewrite_sectionE sec l = .ok (rewrite_section sec l) := by
  cases sec with
  | none => rfl
  | some s =>
    by_cases hA : s = "Arguments"
    · subst hA
      by_cases hc : pyContainsChar l ':' = true
      · simp [rewrite_sectionE, rewrite_section, hc, pySplit1E, colon_in_strip hc]
      · simp [rewrite_sectionE, rewrite_section, hc]
    by_cases hB : s = "Attributes"
    · subst hB
      by_cases hc : pyContainsChar l ':' = true
      · simp [rewrite_sectionE, rewrite_section, hc, pySplit1E, colon_in_strip hc]
      · simp [rewrite_sectionE, rewrite_section, hc]
    by_cases hC : s = "Raises"
    · subst hC
      by_cases hc : pyContainsChar l ':' = true
      · simp [rewrite_sectionE, rewrite_section, hc, pySplit1E, colon_in_strip hc]
      · simp [rewrite_sectionE, rewrite_section, hc]
    by_cases hD : s = "Returns"
    · subst hD
      by_cases hc : pyContainsChar l ':' = true
      · simp [rewrite_sectionE, rewrite_section, hc, pySplit1E, colon_in_strip hc]
      · simp [rewrite_sectionE, rewrite_section, hc]
    by_cases hE : s = "Yields"
    · subst hE
      by_cases hc : pyContainsChar l ':' = true
      · simp [rewrite_sectionE, rewrite_section, hc, pySplit1E, colon_in_strip hc]
      · simp [rewrite_sectionE, rewrite_section, hc]
    · simp [rewrite_sectionE, rewrite_section, hA, hB, hC, hD, hE]

theorem process_line_bodyE_eq (st : PState) (l : String) :
    process_line_bodyE st l =
      ((process_line_body st l).1, .ok (process_line_body st l).2) := by
  by_cases h1 : st.indent = -1 <;>
    by_cases h2 : (((leadingWs l).length : Int) < st.indent) <;>
    simp [process_line_bodyE, process_line_body, h1, h2, rewrite_sectionE_eq]

theorem process_lineE_eq (st : PState) (l : String) :
    process_lineE st l = ((process_line st l).1, .ok (process_line st l).2) := by
  by_cases hb : (pyStrip l == "") = true
  · simp [process_lineE, process_line, hb]
  · cases hh : headerName (pyRstrip l) with
    | none => simp [process_lineE, process_line, hb, hh, process_line_bodyE_eq]
    | some g =>
      cases hlk : valid_sections.lookup (pyLower (pyStrip g)) with
      | none => simp [process_lineE, process_line, hb, hh, hlk, process_line_bodyE_eq]
      | some canon => simp [process_lineE, process_line, hb, hh, hlk]

theorem processOneLineE_eq (st : PState) (l : String) :
    processOneLineE st l = (processOneLine st l, .ok ()) := by
  unfold processOneLineE runLineE processOneLine
  rw [process_codeblockE_eq]
  cases hcb : process_codeblock st l with
  | mk st1 res1 =>
    cases res1 with
    | handled => simp
    | cont l1 =>
      simp only []
      rw [process_doctest_codeblockE_eq]
      cases hdt : process_doctest_codeblock st1 l1 with
      | mk st2 res2 =>
        cases res2 with
        | handled => simp
        | cont l2 =>
          simp only []
          rw [process_lineE_eq]

theorem processLinesE_eq (ls : List String) : ∀ st : PState,
    processLinesE st ls = (processLines st ls, .ok ()) := by
  induction ls with
  | nil => intro st; rfl
  | cons l ls ih =>
    intro st
    unfold processLinesE
    rw [processOneLineE_eq]
    rw [processLines_cons]
    exact ih _

/-- C8: preprocessing never lets an exception reach the caller, on any input:
the fallible rendition always returns `ok`, with exactly the result of the
total one.  The internal `LineFinished` signal is consumed within the single
line that raised it (`processOneLineE_eq`), and the `ValueError` branch of the
split is unreachable thanks to the `':' in line` guard. -/
theorem c8_theorem (st : PState) (content : String) (sig : Option String)
    (anchor : Bool) :
    preprocess_sectionE st content sig anchor =
      .ok (preprocess_section st content sig anchor) := by
  unfold preprocess_sectionE preprocess_section
  rw [processLinesE_eq]

/-! ## C10: a `#symbol` right after a newline is never rewritten

The `(?P<prefix>^| |\t)` group means a match can start only at the very start
of the text or by consuming a space or tab; since no part of a match can
consume a newline, the scan factors through every newline, and a `#` whose
predecessor is a newline is emitted verbatim. -/

theorem takeWhile_append_nl (r ys : List Char) :
    (r ++ '\n' :: ys).takeWhile refChar = r.takeWhile refChar := by
  induction r with
  | nil => simp [List.takeWhile_cons, show refChar '\n' = false from by decide]
  | cons c r ih => by_cases h : refChar c = true <;> simp [List.takeWhile_cons, h, ih]

theorem dropWhile_append_nl (r ys : List Char) :
    (r ++ '\n' :: ys).dropWhile refChar = r.dropWhile refChar ++ '\n' :: ys := by
  induction r with
  | nil => simp [List.dropWhile_cons, show refChar '\n' = false from by decide]
  | cons c r ih => by_cases h : refChar c = true <;> simp [List.dropWhile_cons, h, ih]

theorem parensSplit_nl (dw ys : List Char) :
    parensSplit (dw ++ '\n' :: ys) =
      ((parensSplit dw).1, (parensSplit dw).2 ++ '\n' :: ys) := by
  rcases dw with _ | ⟨d, _ | ⟨e, dw'⟩⟩
  · cases ys with
    | nil => rfl
    | cons y ys' => simp [parensSplit]
  · simp [parensSplit]
  · by_cases h : d = '(' ∧ e = ')' <;> simp [parensSplit, h]

theorem matchCore_nl (pre t ys : List Char) :
    matchCore pre (t ++ '\n' :: ys) =
      (matchCore pre t).map (fun p => (p.1, p.2 ++ '\n' :: ys)) := by
  cases t with
  | nil =>
    show matchCore pre ('\n' :: ys) = _
    simp [matchCore]
  | cons c t' =>
    show matchCore pre (c :: (t' ++ '\n' :: ys)) = _
    by_cases h : c = '#'
    · simp only [matchCore, if_pos h]
      rw [takeWhile_append_nl, dropWhile_append_nl, parensSplit_nl]
      by_cases he : (t'.takeWhile refChar).isEmpty = true
      · simp [he]
      · simp [he]
    · simp only [matchCore, if_neg h]
      rfl

theorem trySpaceTab_nl (t ys : List Char) :
    trySpaceTab (t ++ '\n' :: ys) =
      (trySpaceTab t).map (fun p => (p.1, p.2 ++ '\n' :: ys)) := by
  cases t with
  | nil =>
    show trySpaceTab ('\n' :: ys) = _
    simp [trySpaceTab]
  | cons c t' =>
    show trySpaceTab (c :: (t' ++ '\n' :: ys)) = _
    by_cases h : (c == ' ' || c == '\t') = true
    · simp only [trySpaceTab, if_pos h]
      exact matchCore_nl [c] t' ys
    · simp only [trySpaceTab, if_neg h]
      rfl

theorem tryMatch_nl (a : Bool) (t ys : List Char) :
    tryMatch a (t ++ '\n' :: ys) =
      (tryMatch a t).map (fun p => (p.1, p.2 ++ '\n' :: ys)) := by
  cases a with
  | false => simp [tryMatch, trySpaceTab_nl]
  | true =>
    simp only [tryMatch, if_pos rfl]
    rw [matchCore_nl]
    cases hm : matchCore [] t with
    | some r => simp
    | none => simp [trySpaceTab_nl]

theorem parensSplit_len (rem : List Char) : (parensSplit rem).2.length ≤ rem.length := by
  rcases rem with _ | ⟨d, _ | ⟨e, r2⟩⟩
  · simp [parensSplit]
  · simp [parensSplit]
  · by_cases h : d = '(' ∧ e = ')' <;> simp [parensSplit, h] <;> omega

theorem matchCore_len {pre cs rep rest : List Char}
    (h : matchCore pre cs = some (rep, rest)) : rest.length < cs.length := by
  cases cs with
  | nil => simp [matchCore] at h
  | cons c r =>
    by_cases hc : c = '#'
    · simp only [matchCore, if_pos hc] at h
      by_cases he : (r.takeWhile refChar).isEmpty = true
      · simp [he] at h
      · simp only [he, Bool.false_eq_true, if_neg, ite_false] at h
        have hr : rest = (parensSplit (r.dropWhile refChar)).2 := by
          have := (Option.some.injEq _ _).mp h
          exact (Prod.mk.injEq _ _ _ _).mp this |>.2.symm
        have h1 : rest.length ≤ (r.dropWhile refChar).length := by
          rw [hr]; exact parensSplit_len _
        have h2 : (r.dropWhile refChar).length ≤ r.length :=
          (List.dropWhile_suffix _).length_le
        simp only [List.length_cons]
        omega
    · simp [matchCore, hc] at h

theorem trySpaceTab_len {cs rep rest : List Char}
    (h : trySpaceTab cs = some (rep, rest)) : rest.length < cs.length := by
  cases cs with
  | nil => simp [trySpaceTab] at h
  | cons c r =>
    by_cases hc : (c == ' ' || c == '\t') = true
    · simp only [trySpaceTab, if_pos hc] at h
      have := matchCore_len h
      simp only [List.length_cons]
      omega
    · simp [trySpaceTab, hc] at h

theorem tryMatch_len {a : Bool} {cs rep rest : List Char}
    (h : tryMatch a cs = some (rep, rest)) : rest.length < cs.length := by
  cases a with
  | false =>
    have h' : trySpaceTab cs = some (rep, rest) := by simpa [tryMatch] using h
    exact trySpaceTab_len h'
  | true =>
    simp only [tryMatch, if_pos rfl] at h
    cases hm : matchCore [] cs with
    | some r =>
      rw [hm] at h
      rcases r with ⟨rep0, rest0⟩
      have : rep0 = rep ∧ rest0 = rest := by
        have := (Option.some.injEq _ _).mp h
        exact (Prod.mk.injEq _ _ _ _).mp this
      rw [← this.2]
      exact matchCore_len hm
    | none =>
      rw [hm] at h
      exact trySpaceTab_len h

theorem scanFuel_congr : ∀ (f1 f2 : Nat) (a : Bool) (cs : List Char),
    cs.length ≤ f1 → cs.length ≤ f2 → scanFuel f1 a cs = scanFuel f2 a cs := by
  intro f1
  induction f1 with
  | zero =>
    intro f2 a cs h1 _
    have hcs : cs = [] := List.eq_nil_of_length_eq_zero (Nat.le_zero.mp h1)
    subst hcs
    cases f2 <;> rfl
  | succ n ih =>
    intro f2 a cs h1 h2
    cases cs with
    | nil => cases f2 <;> rfl
    | cons c cs' =>
      cases f2 with
      | zero => simp at h2
      | succ m =>
        simp only [scanFuel]
        cases hm : tryMatch a (c :: cs') with
        | some r =>
          rcases r with ⟨rep, rest⟩
          have hlen := tryMatch_len hm
          simp only [List.length_cons] at hlen h1 h2
          show rep ++ scanFuel n false rest = rep ++ scanFuel m false rest
          congr 1
          exact ih m false rest (by omega) (by omega)
        | none =>
          simp only [List.length_cons] at h1 h2
          show c :: scanFuel n false cs' = c :: scanFuel m false cs'
          congr 1
          exact ih m false cs' (by omega) (by omega)

/-- The `re.sub` scan factors through a newline: no match consumes the `'\n'`,
so the region before it and the region after it are rewritten independently
(the prefix group `^| |\t` is never satisfied by the newline itself). -/
theorem scanFuel_split (ys : List Char) : ∀ (f : Nat) (a : Bool) (xs : List Char),
    (xs ++ '\n' :: ys).length ≤ f →
    scanFuel f a (xs ++ '\n' :: ys) = scanFuel f a xs ++ '\n' :: scanFuel f false ys := by
  intro f
  induction f with
  | zero => intro a xs h; simp at h
  | succ n ih =>
    intro a xs h
    cases xs with
    | nil =>
      have hnone : tryMatch a ('\n' :: ys) = none := by
        cases a <;> simp [tryMatch, trySpaceTab, matchCore]
      simp only [scanFuel, hnone]
      show '\n' :: scanFuel n false ys = scanFuel (n + 1) a [] ++ '\n' :: scanFuel (n + 1) false ys
      rw [show scanFuel (n + 1) a [] = [] from rfl, List.nil_append]
      simp only [List.nil_append, List.length_cons] at h
      rw [scanFuel_congr n (n + 1) false ys (by omega) (by omega)]
    | cons c xs' =>
      have hrw := tryMatch_nl a (c :: xs') ys
      simp only [List.cons_append] at hrw ⊢
      simp only [scanFuel]
      cases hm : tryMatch a (c :: xs') with
      | some r =>
        rcases r with ⟨rep, rest⟩
        rw [hm] at hrw
        simp only [Option.map_some'] at hrw
        rw [hrw]
        show rep ++ scanFuel n false (rest ++ '\n' :: ys) =
          (rep ++ scanFuel n false rest) ++ '\n' :: scanFuel (n + 1) false ys
        have hlen := tryMatch_len hm
        simp only [List.length_cons, List.length_append] at hlen h
        rw [ih false rest (by simp [List.length_append]; omega)]
        rw [scanFuel_congr n (n + 1) false ys (by omega) (by omega)]
        simp [List.append_assoc]
      | none =>
        rw [hm] at hrw
        simp only [Option.map_none'] at hrw
        rw [hrw]
        show c :: scanFuel n false (xs' ++ '\n' :: ys) =
          (c :: scanFuel n false xs') ++ '\n' :: scanFuel (n + 1) false ys
        simp only [List.length_cons, List.length_append] at h
        rw [ih false xs' (by simp [List.length_append]; omega)]
        rw [scanFuel_congr n (n + 1) false ys (by omega) (by omega)]
        simp

/-- Away from the start of the text, the scan emits a run of reference-class
characters verbatim: a match there would need a space or tab to start on. -/
theorem scan_skip (q : List Char) : ∀ (zs : List Char) (f : Nat),
    (∀ c ∈ zs, refChar c = true) → (zs ++ q).length ≤ f →
    scanFuel f false (zs ++ q) = zs ++ scanFuel f false q := by
  intro zs
  induction zs with
  | nil => intro f _ _; simp
  | cons c zs' ih =>
    intro f h1 h2
    cases f with
    | zero => simp at h2
    | succ n =>
      have hcr : refChar c = true := h1 c (by simp)
      have hst : (c == ' ' || c == '\t') = false := by
        have hs1 : c ≠ ' ' := by intro e; rw [e] at hcr; exact absurd hcr (by decide)
        have hs2 : c ≠ '\t' := by intro e; rw [e] at hcr; exact absurd hcr (by decide)
        simp [hs1, hs2]
      have hnm : tryMatch false (c :: (zs' ++ q)) = none := by
        simp [tryMatch, trySpaceTab, hst]
      rw [show (c :: zs') ++ q = c :: (zs' ++ q) from rfl]
      simp only [scanFuel]
      rw [hnm]
      show c :: scanFuel n false (zs' ++ q) = c :: (zs' ++ scanFuel (n + 1) false q)
      simp only [List.length_cons, List.length_append] at h2
      rw [ih n (fun x hx => h1 x (by simp [hx])) (by simp [List.length_append]; omega)]
      rw [scanFuel_congr n (n + 1) false q (by omega) (by omega)]

/-- C10: in the reference post-pass, a `#symbol` token at the start of a line
other than the first — i.e. a `'#'` whose predecessor is a newline — is left
unrewritten: the accepted prefixes before `'#'` are only the start of the whole
text, a space, or a tab, and a newline satisfies none of them.  The text before
the newline is rewritten exactly as if it were the whole input, the `'#'` and
the symbol after it are emitted verbatim, and scanning resumes after the
symbol. -/
theorem c10_theorem (p sym q : List Char) (hsym : ∀ c ∈ sym, refChar c = true) :
    preprocess_refs ⟨p ++ '\n' :: '#' :: (sym ++ q)⟩ =
      ⟨(preprocess_refs ⟨p⟩).data ++ '\n' :: '#' ::
        (sym ++ scanFuel q.length false q)⟩ := by
  unfold preprocess_refs
  refine congrArg String.mk ?_
  simp only [data_mk]
  have hsplit := scanFuel_split ('#' :: (sym ++ q))
    (p ++ '\n' :: '#' :: (sym ++ q)).length true p (le_refl _)
  rw [hsplit]
  have hlen : p.length ≤ (p ++ '\n' :: '#' :: (sym ++ q)).length := by
    simp [List.length_append]
  rw [scanFuel_congr (p ++ '\n' :: '#' :: (sym ++ q)).length p.length true p hlen (le_refl _)]
  congr 1
  have hash : ∀ f : Nat, ('#' :: (sym ++ q)).length ≤ f →
      scanFuel f false ('#' :: (sym ++ q)) =
        '#' :: (sym ++ scanFuel q.length false q) := by
    intro f hf
    cases f with
    | zero => simp at hf
    | succ n =>
      have hnm : tryMatch false ('#' :: (sym ++ q)) = none := by
        simp [tryMatch, trySpaceTab]
      simp only [scanFuel, hnm]
      show '#' :: scanFuel n false (sym ++ q) = '#' :: (sym ++ scanFuel q.length false q)
      simp only [List.length_cons, List.length_append] at hf
      rw [scan_skip q sym n hsym (by simp [List.length_append]; omega)]
      rw [scanFuel_congr n q.length false q (by omega) (le_refl _)]
  rw [hash _ (by simp [List.length_append]; omega)]

/-- C10 witness: `#foo` right after the newline in `see\n#foo #x` stays
verbatim while the tail is still scanned. -/
theorem c10_witness :
    (∀ c ∈ ['f', 'o', 'o'], refChar c = true) ∧
      preprocess_refs ⟨"see".data ++ '\n' :: '#' :: (['f', 'o', 'o'] ++ " #x".data)⟩ =
        ⟨(preprocess_refs ⟨"see".data⟩).data ++ '\n' :: '#' ::
          (['f', 'o', 'o'] ++ scanFuel " #x".data.length false " #x".data)⟩ :=
  ⟨by decide, c10_theorem "see".data ['f', 'o', 'o'] " #x".data (by decide)⟩
